import Mathlib

/-!
Verification of the FADA press-release monitor (`fada_monitor.py`).

The development shallowly embeds the pipeline of the monitor: link
extraction from a parsed listing page (`find_new_reports`), the persisted
state file (`load_state` / `save_state`), the per-report processing loop of
`main` (download, text extraction, placeholder summary, notification,
state commit), and the exit-code behaviour.  External collaborators (HTTP
transport, HTML parsing, PDF text extraction, SMTP delivery) are modelled
as oracle functions supplied by an environment record; the pipeline logic
itself is translated line by line from the Python source.  Character
classes follow the ASCII fragment of the corresponding Python classes.
-/

namespace Fada

/-! ### Character classes and basic string helpers -/

/-- ASCII whitespace, the characters matched by the Python regex class
backslash-s on ASCII input (space, tab, newline, carriage return,
vertical tab, form feed). -/
def isSpaceChar (c : Char) : Bool :=
  c = ' ' || c = '\t' || c = '\n' || c = '\r' || c = '\x0b' || c = '\x0c'

/-- ASCII word characters, the Python regex class backslash-w on ASCII
input: letters, digits and underscore. -/
def isWordChar (c : Char) : Bool :=
  c.isAlpha || c.isDigit || c = '_'

/-- The character class `[a-f0-9]` of the title regex, under
`re.IGNORECASE`: hexadecimal digit letters a-f of either case, or a
decimal digit. -/
def isHexDigit (c : Char) : Bool :=
  ('a' ≤ c.toLower && c.toLower ≤ 'f') || ('0' ≤ c && c ≤ '9')

/-- Python `str.endswith(".pdf")` (case-sensitive). -/
def endsWithPdf (s : String) : Bool :=
  List.isSuffixOf ".pdf".data s.data

/-- Python `str.startswith("http")`. -/
def startsWithHttp (s : String) : Bool :=
  List.isPrefixOf "http".data s.data

/-- Python `href.split('/')[-1]`: the final segment after the last slash
(the whole string when no slash occurs). -/
def lastSeg (s : String) : String :=
  String.mk (s.data.foldl (fun acc c => if c = '/' then [] else acc ++ [c]) [])

/-- Python `str.lstrip('/')`: remove every leading slash. -/
def dropSlashes (s : String) : String :=
  String.mk (s.data.dropWhile (· = '/'))

/-- Python `str.strip()` restricted to ASCII whitespace: remove leading and
trailing whitespace. -/
def stripStr (s : String) : String :=
  String.mk (((s.data.dropWhile isSpaceChar).reverse.dropWhile isSpaceChar).reverse)

/-! ### The report pattern

`pattern = re.compile(r'fada\s+releases.*vehicle\s+retail\s+data', re.IGNORECASE)`
used with `pattern.search(...)`.  The matcher below reproduces the
backtracking semantics of the Python `re` engine for this pattern: the
literals are matched case-insensitively, `\s+` consumes a maximal
whitespace run (equivalent to greedy matching with backtracking because
each following literal starts with a non-whitespace character), and `.`
matches any character except newline. -/

/-- Match a literal (given in lowercase) case-insensitively at the head of
the input, returning the rest of the input on success. -/
def litCI : List Char → List Char → Option (List Char)
  | [], cs => some cs
  | _ :: _, [] => none
  | p :: ps, c :: cs => if c.toLower = p then litCI ps cs else none

/-- Match `\s+` at the head of the input: require one whitespace character
and consume the maximal whitespace run. -/
def ws1 : List Char → Option (List Char)
  | [] => none
  | c :: cs => if isSpaceChar c then some (cs.dropWhile isSpaceChar) else none

/-- Match `vehicle\s+retail\s+data` at the head of the input. -/
def matchVRD (cs : List Char) : Bool :=
  (do
    let c1 ← litCI "vehicle".data cs
    let c2 ← ws1 c1
    let c3 ← litCI "retail".data c2
    let c4 ← ws1 c3
    litCI "data".data c4).isSome

/-- Match `.*vehicle\s+retail\s+data` at the head of the input: skip any
run of non-newline characters before the tail. -/
def dotStarVRD : List Char → Bool
  | [] => matchVRD []
  | c :: cs => matchVRD (c :: cs) || (c ≠ '\n' && dotStarVRD cs)

/-- Match the whole report pattern anchored at the head of the input. -/
def matchFR (cs : List Char) : Bool :=
  match (do
          let c1 ← litCI "fada".data cs
          let c2 ← ws1 c1
          litCI "releases".data c2 : Option (List Char)) with
  | none => false
  | some rest => dotStarVRD rest

/-- Search for the report pattern at every position of the input. -/
def patternSearchAux : List Char → Bool
  | [] => matchFR []
  | c :: cs => matchFR (c :: cs) || patternSearchAux cs

/-- `pattern.search(s)` of the report pattern: true when some position of
`s` starts a match. -/
def patternSearch (s : String) : Bool :=
  patternSearchAux s.data

/-! ### Title derivation

`re.search(r'[a-f0-9]+(.+)\.pdf$', pdf_name, re.IGNORECASE)` followed by
`.group(1).strip()`, with the fallback `pdf_name.replace('.pdf', '')`
when the regex finds no match (lines 83-87 of the source).  The matcher
reproduces leftmost search, greedy `[a-f0-9]+` and `(.+)` with
backtracking, `.` excluding newline, and `$` matching at the end of the
string or just before a final newline. -/

/-- Match `\.pdf$` (case-insensitive) against the whole remaining input:
a literal dot, then `pdf` in either case, then the end of the string or a
single final newline. -/
def isPdfTail : List Char → Bool
  | '.' :: p :: d :: f :: rest =>
      p.toLower = 'p' && d.toLower = 'd' && f.toLower = 'f' &&
        (rest = [] || rest = ['\n'])
  | _ => false

/-- Match `(.*)\.pdf$` against the whole remaining input, returning the
group.  Greedy: the group extends as far as possible, and never contains
a newline. -/
def dotStarPdf : List Char → Option (List Char)
  | [] => none
  | c :: cs =>
      if c = '\n' then (if isPdfTail (c :: cs) then some [] else none)
      else
        match dotStarPdf cs with
        | some g => some (c :: g)
        | none => if isPdfTail (c :: cs) then some [] else none

/-- Match `(.+)\.pdf$` against the whole remaining input, returning the
(nonempty) group. -/
def dotPlusPdf : List Char → Option (List Char)
  | [] => none
  | c :: cs => if c = '\n' then none else (dotStarPdf cs).map (c :: ·)

/-- Match `[a-f0-9]*(.+)\.pdf$` against the whole remaining input with the
greedy-star backtracking of the `re` engine: prefer consuming a further
hex digit, and on failure let the group start here. -/
def hexStar : List Char → Option (List Char)
  | [] => none
  | c :: cs =>
      if isHexDigit c then
        match hexStar cs with
        | some g => some g
        | none => dotPlusPdf (c :: cs)
      else dotPlusPdf (c :: cs)

/-- Match `[a-f0-9]+(.+)\.pdf$` anchored at the head of the input. -/
def matchHexAt : List Char → Option (List Char)
  | [] => none
  | c :: cs => if isHexDigit c then hexStar cs else none

/-- Leftmost search for `[a-f0-9]+(.+)\.pdf$`: the group of the match at
the first position where a match exists. -/
def titleSearch : List Char → Option (List Char)
  | [] => none
  | c :: cs =>
      match matchHexAt (c :: cs) with
      | some g => some g
      | none => titleSearch cs

/-- Worker of `removePdfAll`.  The fuel argument only bounds the
recursion; it never runs out when initialized with the input length. -/
def removePdfAllGo : Nat → List Char → List Char
  | 0, _ => []
  | _, [] => []
  | fuel + 1, c :: cs =>
      if ".pdf".data.isPrefixOf (c :: cs) then removePdfAllGo fuel (cs.drop 3)
      else c :: removePdfAllGo fuel cs

/-- Python `pdf_name.replace('.pdf', '')`: remove every non-overlapping
occurrence of `.pdf`, scanning left to right. -/
def removePdfAll (l : List Char) : List Char :=
  removePdfAllGo l.length l

/-- Title derivation of strategy 1 (source lines 81-87): the stripped
group of the hash-prefix regex when it matches the PDF file name, and
otherwise the file name with every occurrence of `.pdf` removed. -/
def deriveTitle (pdfName : String) : String :=
  match titleSearch pdfName.data with
  | some g => stripStr (String.mk g)
  | none => String.mk (removePdfAll pdfName.data)

/-! ### Parsed listing markup

HTML parsing is an external collaborator (BeautifulSoup); a parsed page is
modelled by the two views the extractor queries: the document-ordered list
of anchors carrying an `href` attribute (`soup.find_all('a', href=True)`)
and the list of card containers (`soup.find_all('div', class_='card-body')`),
each with the stripped text of its first `h3`/`h4`/`h5` heading, if any,
and its own document-ordered anchors. -/

structure Anchor where
  href : String
deriving DecidableEq, Repr

structure Card where
  heading : Option String
  anchors : List Anchor
deriving DecidableEq, Repr

structure Listing where
  anchors : List Anchor
  cards : List Card
deriving DecidableEq, Repr

/-- A report candidate as built by `find_new_reports`. -/
structure Report where
  title : String
  url : String
deriving DecidableEq, Repr

/-- `BASE_URL = "https://fada.in"` (source line 25). -/
def BASE_URL : String := "https://fada.in"

/-- URL normalization of `find_new_reports` (source lines 90-91 and
113-114): a relative href is rewritten to
`f"{BASE_URL}/{href.lstrip('/')}"`. -/
def normalizeUrl (href : String) : String :=
  if startsWithHttp href then href else BASE_URL ++ "/" ++ dropSlashes href

/-- Strategy 1 of `find_new_reports` (source lines 77-99): every anchor
whose href ends in `.pdf` and matches the report pattern yields a
candidate with the title derived from the final path segment and the
normalized URL, unless that URL is already in the processed list. -/
def strategy1 (processed : List String) : List Anchor → List Report
  | [] => []
  | a :: rest =>
      if endsWithPdf a.href && patternSearch a.href then
        let url := normalizeUrl a.href
        if url ∈ processed then strategy1 processed rest
        else ⟨deriveTitle (lastSeg a.href), url⟩ :: strategy1 processed rest
      else strategy1 processed rest

/-- Strategy 2 of `find_new_reports` (source lines 102-122): every card
whose first heading matches the report pattern and which contains an
anchor ending in `.pdf` yields a candidate with the heading text as title
and the normalized URL of the first such anchor, unless that URL is
already in the processed list. -/
def strategy2 (processed : List String) : List Card → List Report
  | [] => []
  | card :: rest =>
      match card.heading with
      | none => strategy2 processed rest
      | some t =>
          if patternSearch t then
            match card.anchors.find? (fun a => endsWithPdf a.href) with
            | none => strategy2 processed rest
            | some a =>
                let url := normalizeUrl a.href
                if url ∈ processed then strategy2 processed rest
                else ⟨t, url⟩ :: strategy2 processed rest
          else strategy2 processed rest

/-- `find_new_reports` (source lines 67-124): strategy 1 over all
anchors, and, only when its (already filtered) result list is empty, the
card strategy. -/
def findNewReports (page : Listing) (processed : List String) : List Report :=
  let nr := strategy1 processed page.anchors
  if nr = [] then strategy2 processed page.cards else nr

/-! ### Filename sanitization (source lines 318-320) -/

/-- First substitution `re.sub(r'[^\w\s-]', '', title)`: keep exactly the
word characters, whitespace and hyphens. -/
def keepFilenameChar (c : Char) : Bool :=
  isWordChar c || isSpaceChar c || c = '-'

/-- Second substitution `re.sub(r'[\s]+', '_', ...)`: replace every
maximal whitespace run by a single underscore.  The flag records whether
the previous character was whitespace. -/
def collapseWs : Bool → List Char → List Char
  | _, [] => []
  | prev, c :: cs =>
      if isSpaceChar c then
        if prev then collapseWs true cs else '_' :: collapseWs true cs
      else c :: collapseWs false cs

/-- The sanitized title: both substitutions composed. -/
def sanitizeTitle (t : String) : String :=
  String.mk (collapseWs false (t.data.filter keepFilenameChar))

/-- The artifact filename built in `main` (source lines 318-320):
sanitized title, underscore, date stamp, `.pdf`. -/
def mainFilename (title date : String) : String :=
  sanitizeTitle title ++ "_" ++ date ++ ".pdf"

/-- The sanitization asserted by claim C6: ALL non-word, non-space
characters removed (including hyphens), then whitespace collapsed to
underscores.  Used only to compare the claim against the source. -/
def claimSanitize (t : String) : String :=
  String.mk (collapseWs false (t.data.filter (fun c => isWordChar c || isSpaceChar c)))

/-! ### Environment and the run of `main`

The environment packages the external collaborators and configuration:
the fetched listing text (`None` models a `requests.RequestException` in
`fetch_press_releases`), the HTML parser, the network download oracle
(`None` models a `requests.RequestException` in `download_pdf`), the PDF
text-extraction oracle over the downloaded bytes (`None` models failure
of both extraction engines), the date stamp, the home directory, and the
environment-derived configuration values. -/

structure Env where
  html : Option String
  parse : String → Listing
  net : String → Option String
  extractO : String → Option String
  today : String
  home : String
  anthropicKey : Option String
  smtpUser : Option String
  smtpPassword : Option String
  smtpTransportOk : Bool
  notificationEmail : String

/-- The fixed summary used by `main` (source line 338), the AI call being
disabled. -/
def placeholderSummary : String :=
  "New report downloaded. Summary generation is currently disabled."

/-- `generate_summary` (source lines 183-217): with no API key configured
the function reports an error and returns `None`; otherwise it calls the
external model on the title and the text truncated to 50000 characters.
The external call is an oracle argument. -/
def generateSummary (apiKey : Option String)
    (model : String → String → Option String) (text title : String) :
    Option String :=
  match apiKey with
  | none => none
  | some _ => model (String.mk (text.data.take 50000)) title

/-- `send_email` (source lines 219-257): with SMTP user or password unset
or empty the send is skipped (`False`); otherwise the result is that of
the SMTP transport, every exception being caught (`False`). -/
def sendEmailOk (env : Env) : Bool :=
  match env.smtpUser, env.smtpPassword with
  | none, _ => false
  | _, none => false
  | some u, some p =>
      if u = "" || p = "" then false else env.smtpTransportOk

/-- The artifact path `DOWNLOAD_DIR / filename` with
`DOWNLOAD_DIR = Path.home() / "fada_reports"` (source lines 28, 138, 320). -/
def pdfPath (env : Env) (title : String) : String :=
  env.home ++ "/fada_reports/" ++ mainFilename title env.today

/-- Whether a candidate passes download and text extraction in `main`
(source lines 323-331): the download returns bytes, and extraction of
those bytes returns a non-empty text (`if not text` also skips an empty
extraction result). -/
def completes (env : Env) (r : Report) : Bool :=
  match env.net r.url with
  | none => false
  | some bytes =>
      match env.extractO bytes with
      | none => false
      | some text => !(text = "")

/-- Observable outcome of the per-report loop: the in-memory processed
list, the console notification records (title, artifact path, summary) in
order, and the number of successfully sent emails. -/
structure LoopOut where
  processed : List String
  console : List (String × String × String)
  emails : Nat
deriving DecidableEq, Repr

/-- The per-report loop of `main` (source lines 314-343): for each
candidate in order, download, extract, use the placeholder summary,
notify (console record always, email best-effort) and append the URL to
the processed list; a download or extraction failure skips the candidate. -/
def runLoop (env : Env) : List Report → List String → LoopOut
  | [], ps => ⟨ps, [], 0⟩
  | r :: rs, ps =>
      match env.net r.url with
      | none => runLoop env rs ps
      | some bytes =>
          match env.extractO bytes with
          | none => runLoop env rs ps
          | some text =>
              if text = "" then runLoop env rs ps
              else
                let rest := runLoop env rs (ps ++ [r.url])
                ⟨rest.processed,
                 (r.title, pdfPath env r.title, placeholderSummary) :: rest.console,
                 (if sendEmailOk env then 1 else 0) + rest.emails⟩

/-- Observable outcome of one run of `main`: exit code, console records,
sent-email count, final processed list, and whether `save_state` ran. -/
structure RunResult where
  exitCode : Nat
  console : List (String × String × String)
  emails : Nat
  processed : List String
  saved : Bool
deriving DecidableEq, Repr

/-- One run of `main` (source lines 287-349) from a given processed list:
exit 1 when the fetched listing is `None` or empty (`if not html`), exit 0
with no work when the candidate list is empty (no state save), and
otherwise the per-report loop followed by a state save and exit 0. -/
def runCore (env : Env) (ps : List String) : RunResult :=
  match env.html with
  | none => ⟨1, [], 0, ps, false⟩
  | some h =>
      if h = "" then ⟨1, [], 0, ps, false⟩
      else
        let nr := findNewReports (env.parse h) ps
        if nr = [] then ⟨0, [], 0, ps, false⟩
        else
          let out := runLoop env nr ps
          ⟨0, out.console, out.emails, out.processed, true⟩

/-! ### The persisted state file

`load_state` returns the parsed JSON object of the state file and `main`
reads and reassigns only its `"processed_reports"` key before
`save_state` rewrites the file with the whole object (source lines 38-48,
294-296, 345-347).  The JSON object is modelled as an association list
from keys to values, a value being either a list of strings or an opaque
other JSON value. -/

inductive JVal where
  | strs (l : List String)
  | other (raw : String)
deriving DecidableEq, Repr

/-- A persisted state file: the parsed JSON object. -/
abbrev StateFile := List (String × JVal)

/-- `state["processed_reports"]` as read by `main`: the value of the key
when it is a string list (`none` models the uncaught `KeyError` or type
error on a malformed file, which the spec treats as fatal operator
error). -/
def getProcessed (s : StateFile) : Option (List String) :=
  match s.lookup "processed_reports" with
  | some (JVal.strs l) => some l
  | _ => none

/-- `state["processed_reports"] = processed`: replace the value at the
key, leaving every other entry unchanged. -/
def setProcessed : StateFile → List String → StateFile
  | [], _ => []
  | (k, v) :: rest, l =>
      if k = "processed_reports" then
        ("processed_reports", JVal.strs l) :: setProcessed rest l
      else (k, v) :: setProcessed rest l

/-- One run of `main` from a loaded state file, returning the run outcome
and the state file contents after the run (rewritten by `save_state` only
when the run reached it). -/
def runMain (env : Env) (file : StateFile) : Option (RunResult × StateFile) :=
  match getProcessed file with
  | none => none
  | some ps =>
      let res := runCore env ps
      some (res, if res.saved then setProcessed file res.processed else file)

/-! ### Structural lemmas about the extractor -/

/-- Every candidate produced by strategy 1 has a URL outside the supplied
processed list. -/
lemma strategy1_url_not_mem (ps : List String) (l : List Anchor) :
    ∀ r ∈ strategy1 ps l, r.url ∉ ps := by
  induction l with
  | nil => simp [strategy1]
  | cons a rest ih =>
      intro r hr
      by_cases hp : (endsWithPdf a.href && patternSearch a.href) = true
      · by_cases hm : normalizeUrl a.href ∈ ps
        · simp only [strategy1, hp, if_true, hm] at hr
          exact ih r hr
        · simp only [strategy1, hp, if_true, hm, if_false, List.mem_cons] at hr
          rcases hr with hr | hr
          · subst hr; exact hm
          · exact ih r hr
      · simp only [strategy1, hp, if_false] at hr
        exact ih r hr

/-- Every candidate produced by strategy 2 has a URL outside the supplied
processed list. -/
lemma strategy2_url_not_mem (ps : List String) (l : List Card) :
    ∀ r ∈ strategy2 ps l, r.url ∉ ps := by
  induction l with
  | nil => simp [strategy2]
  | cons card rest ih =>
      intro r hr
      cases hh : card.heading with
      | none => simp only [strategy2, hh] at hr; exact ih r hr
      | some t =>
          simp only [strategy2, hh] at hr
          by_cases hp : patternSearch t = true
          · simp only [hp, if_true] at hr
            cases hf : card.anchors.find? (fun a => endsWithPdf a.href) with
            | none => simp only [hf] at hr; exact ih r hr
            | some a =>
                simp only [hf] at hr
                by_cases hm : normalizeUrl a.href ∈ ps
                · simp only [hm, if_true] at hr; exact ih r hr
                · simp only [hm, if_false] at hr
                  rcases List.mem_cons.mp hr with hr | hr
                  · subst hr; exact hm
                  · exact ih r hr
          · simp only [hp, if_false] at hr; exact ih r hr

/-- Every candidate produced by `find_new_reports` has a URL outside the
supplied processed list. -/
lemma findNewReports_url_not_mem (page : Listing) (ps : List String) :
    ∀ r ∈ findNewReports page ps, r.url ∉ ps := by
  intro r hr
  simp only [findNewReports] at hr
  by_cases h : strategy1 ps page.anchors = []
  · simp only [h, if_true] at hr; exact strategy2_url_not_mem ps page.cards r hr
  · simp only [h, if_false] at hr; exact strategy1_url_not_mem ps page.anchors r hr

/-- Strategy 1 produces nothing against a processed list that covers both
the original list and every URL it produced against the original list. -/
lemma strategy1_eq_nil (ps ps' : List String) (l : List Anchor)
    (hsub : ∀ u, u ∈ ps → u ∈ ps')
    (hcov : ∀ r ∈ strategy1 ps l, r.url ∈ ps') :
    strategy1 ps' l = [] := by
  induction l with
  | nil => rfl
  | cons a rest ih =>
      by_cases hp : (endsWithPdf a.href && patternSearch a.href) = true
      · have hmem : normalizeUrl a.href ∈ ps' := by
          by_cases hm : normalizeUrl a.href ∈ ps
          · exact hsub _ hm
          · refine hcov ⟨deriveTitle (lastSeg a.href), normalizeUrl a.href⟩ ?_
            simp only [strategy1, hp, if_true, hm, if_false]
            exact List.mem_cons_self _ _
        simp only [strategy1, hp, if_true, hmem]
        refine ih ?_
        intro r hr
        refine hcov r ?_
        by_cases hm : normalizeUrl a.href ∈ ps
        · simp only [strategy1, hp, if_true, hm]; exact hr
        · simp only [strategy1, hp, if_true, hm, if_false]
          exact List.mem_cons_of_mem _ hr
      · simp only [strategy1, hp, if_false]
        refine ih ?_
        intro r hr
        refine hcov r ?_
        simp only [strategy1, hp, if_false]
        exact hr

/-- `completes` depends only on the URL of the candidate. -/
lemma completes_congr (env : Env) (r r' : Report) (h : r.url = r'.url) :
    completes env r = completes env r' := by
  simp [completes, h]

/-! ### Characterization of the per-report loop -/

/-- The processed list after the loop: the initial list followed by the
URLs of exactly the candidates that pass download and extraction, in
order. -/
lemma runLoop_processed (env : Env) (rs : List Report) (ps : List String) :
    (runLoop env rs ps).processed
      = ps ++ (rs.filter (completes env)).map Report.url := by
  induction rs generalizing ps with
  | nil => simp [runLoop]
  | cons r rs ih =>
      cases hnet : env.net r.url with
      | none => simp [runLoop, hnet, completes, ih]
      | some bytes =>
          cases hext : env.extractO bytes with
          | none => simp [runLoop, hnet, hext, completes, ih]
          | some text =>
              by_cases ht : text = ""
              · simp [runLoop, hnet, hext, ht, completes, ih]
              · simp [runLoop, hnet, hext, ht, completes, ih]

/-- The console records of the loop: one per candidate that passes
download and extraction, in order, each carrying the candidate title, the
artifact path and the placeholder summary. -/
lemma runLoop_console (env : Env) (rs : List Report) (ps : List String) :
    (runLoop env rs ps).console
      = (rs.filter (completes env)).map
          (fun r => (r.title, pdfPath env r.title, placeholderSummary)) := by
  induction rs generalizing ps with
  | nil => simp [runLoop]
  | cons r rs ih =>
      cases hnet : env.net r.url with
      | none => simp [runLoop, hnet, completes, ih]
      | some bytes =>
          cases hext : env.extractO bytes with
          | none => simp [runLoop, hnet, hext, completes, ih]
          | some text =>
              by_cases ht : text = ""
              · simp [runLoop, hnet, hext, ht, completes, ih]
              · simp [runLoop, hnet, hext, ht, completes, ih]

/-- Unfolding of `runCore` on a successfully fetched, non-empty listing. -/
lemma runCore_some (env : Env) (h : String) (ps : List String)
    (hh : env.html = some h) (hne : h ≠ "") :
    runCore env ps =
      (if findNewReports (env.parse h) ps = [] then
        ⟨0, [], 0, ps, false⟩
      else
        ⟨0, (runLoop env (findNewReports (env.parse h) ps) ps).console,
         (runLoop env (findNewReports (env.parse h) ps) ps).emails,
         (runLoop env (findNewReports (env.parse h) ps) ps).processed, true⟩) := by
  rw [runCore, hh]
  simp only [hne, if_neg]
  rfl

/-- Unfolding of `runCore` when the listing fetch failed. -/
lemma runCore_none (env : Env) (ps : List String) (hh : env.html = none) :
    runCore env ps = ⟨1, [], 0, ps, false⟩ := by
  rw [runCore, hh]

/-- Unfolding of `runCore` when the fetched listing is the empty string. -/
lemma runCore_empty (env : Env) (ps : List String) (hh : env.html = some "") :
    runCore env ps = ⟨1, [], 0, ps, false⟩ := by
  rw [runCore, hh]
  simp

/-- Unfolding of `runCore` when the candidate list is empty. -/
lemma runCore_no_new (env : Env) (h : String) (ps : List String)
    (hh : env.html = some h) (hne : h ≠ "")
    (hnr : findNewReports (env.parse h) ps = []) :
    runCore env ps = ⟨0, [], 0, ps, false⟩ := by
  rw [runCore_some env h ps hh hne, if_pos hnr]

/-- Unfolding of `runCore` when the candidate list is non-empty: the
console records and the final processed list are those of the loop over
the candidates that pass download and extraction. -/
lemma runCore_run (env : Env) (h : String) (ps : List String)
    (hh : env.html = some h) (hne : h ≠ "")
    (hnr : findNewReports (env.parse h) ps ≠ []) :
    runCore env ps =
      ⟨0,
       ((findNewReports (env.parse h) ps).filter (completes env)).map
          (fun r => (r.title, pdfPath env r.title, placeholderSummary)),
       (runLoop env (findNewReports (env.parse h) ps) ps).emails,
       ps ++ ((findNewReports (env.parse h) ps).filter (completes env)).map Report.url,
       true⟩ := by
  rw [runCore_some env h ps hh hne, if_neg hnr,
    runLoop_console env (findNewReports (env.parse h) ps) ps,
    runLoop_processed env (findNewReports (env.parse h) ps) ps]

/-- Case analysis on a run: either it ends before the per-report loop
with the processed list unchanged and no save, or the listing was fetched
non-empty with a non-empty candidate list and the processed list is
extended by the completed candidates' URLs. -/
lemma runCore_processed_cases (env : Env) (ps : List String) :
    ((runCore env ps).processed = ps ∧ (runCore env ps).saved = false)
    ∨ ∃ h, env.html = some h ∧ h ≠ "" ∧ findNewReports (env.parse h) ps ≠ []
        ∧ (runCore env ps).processed
            = ps ++ ((findNewReports (env.parse h) ps).filter (completes env)).map Report.url
        ∧ (runCore env ps).saved = true := by
  cases hh : env.html with
  | none =>
      left
      rw [runCore_none env ps hh]
      exact ⟨rfl, rfl⟩
  | some h =>
      by_cases hne : h = ""
      · left
        subst hne
        rw [runCore_empty env ps hh]
        exact ⟨rfl, rfl⟩
      · by_cases hnr : findNewReports (env.parse h) ps = []
        · left
          rw [runCore_no_new env h ps hh hne hnr]
          exact ⟨rfl, rfl⟩
        · right
          exact ⟨h, rfl, hne, hnr,
            by rw [runCore_run env h ps hh hne hnr],
            by rw [runCore_run env h ps hh hne hnr]⟩

/-! ### Lemmas about title derivation and sanitization -/

/-- `removePdfAllGo` removes a unique final `.pdf` occurrence, leaving
the stem intact, for any sufficient fuel. -/
lemma removePdfAllGo_cons (fuel : Nat) (c : Char) (cs : List Char) :
    removePdfAllGo (fuel + 1) (c :: cs)
      = if ".pdf".data.isPrefixOf (c :: cs) then removePdfAllGo fuel (cs.drop 3)
        else c :: removePdfAllGo fuel cs := rfl

lemma removePdfAllGo_append (l : List Char) :
    ∀ fuel, l.length + 4 ≤ fuel →
      (∀ i, i < l.length →
        (".pdf".data.isPrefixOf ((l ++ ".pdf".data).drop i)) = false) →
      removePdfAllGo fuel (l ++ ".pdf".data) = l := by
  induction l with
  | nil =>
      intro fuel hf _
      have hf' : 4 ≤ fuel := by simpa using hf
      obtain ⟨k, rfl⟩ : ∃ k, fuel = k + 4 := ⟨fuel - 4, by omega⟩
      rfl
  | cons c cs ih =>
      intro fuel hf h
      have hf' : cs.length + 5 ≤ fuel := by simp at hf; omega
      obtain ⟨f, rfl⟩ : ∃ f, fuel = f + 1 := ⟨fuel - 1, by omega⟩
      have h0 : (".pdf".data.isPrefixOf (c :: (cs ++ ".pdf".data))) = false := by
        have := h 0 (by simp)
        simpa using this
      have hstep : ∀ i, i < cs.length →
          (".pdf".data.isPrefixOf ((cs ++ ".pdf".data).drop i)) = false := by
        intro i hi
        have := h (i + 1) (by simp; omega)
        simpa using this
      rw [List.cons_append, removePdfAllGo_cons,
        if_neg (by rw [h0]; exact Bool.false_ne_true)]
      rw [ih f (by omega) hstep]

/-- `removePdfAll` of a stem followed by a unique final `.pdf` is the
stem. -/
lemma removePdfAll_append (l : List Char)
    (h : ∀ i, i < l.length →
      (".pdf".data.isPrefixOf ((l ++ ".pdf".data).drop i)) = false) :
    removePdfAll (l ++ ".pdf".data) = l := by
  rw [removePdfAll]
  exact removePdfAllGo_append l (l ++ ".pdf".data).length (by simp) h

/-- Collapsing whitespace over a filtered title yields only word
characters, hyphens and underscores. -/
lemma collapseWs_chars (l : List Char) (h : ∀ c ∈ l, keepFilenameChar c = true) :
    ∀ b, ∀ c ∈ collapseWs b l, (isWordChar c || c = '-' || c = '_') = true := by
  induction l with
  | nil => intro b c hc; simp [collapseWs] at hc
  | cons x xs ih =>
      intro b c hc
      have hx := h x (List.mem_cons_self x xs)
      have hxs : ∀ c ∈ xs, keepFilenameChar c = true :=
        fun c hc => h c (List.mem_cons_of_mem _ hc)
      by_cases hsp : isSpaceChar x = true
      · cases b with
        | true =>
            rw [show collapseWs true (x :: xs) = collapseWs true xs by
              simp [collapseWs, hsp]] at hc
            exact ih hxs true c hc
        | false =>
            rw [show collapseWs false (x :: xs) = '_' :: collapseWs true xs by
              simp [collapseWs, hsp]] at hc
            rcases List.mem_cons.mp hc with hc | hc
            · subst hc; simp
            · exact ih hxs true c hc
      · rw [show collapseWs b (x :: xs) = x :: collapseWs false xs by
          simp [collapseWs, hsp]] at hc
        rcases List.mem_cons.mp hc with hc | hc
        · subst hc
          have hspf : isSpaceChar c = false := by simpa using hsp
          rw [keepFilenameChar, hspf] at hx
          simp only [Bool.or_false, Bool.false_or] at hx
          rcases Bool.or_eq_true_iff.mp hx with h1 | h2
          · simp [h1]
          · simp [h2]
        · exact ih hxs false c hc

/-! ### Lemmas about the state file -/

/-- Reassigning the processed key leaves the value of every other key
unchanged. -/
lemma lookup_setProcessed_ne (s : StateFile) (l : List String) (k : String)
    (hk : k ≠ "processed_reports") :
    (setProcessed s l).lookup k = s.lookup k := by
  induction s with
  | nil => rfl
  | cons kv rest ih =>
      obtain ⟨k0, v0⟩ := kv
      by_cases h : k0 = "processed_reports"
      · subst h
        have hkk : (k == "processed_reports") = false := beq_eq_false_iff_ne.mpr hk
        simp only [setProcessed, if_pos rfl, List.lookup, hkk]
        exact ih
      · simp only [setProcessed, if_neg h, List.lookup]
        cases hkk : k == k0 with
        | true => rfl
        | false => exact ih

/-- After a reassignment of the processed key, reading it back yields the
assigned list, provided the key was present with a string-list value. -/
lemma getProcessed_setProcessed (s : StateFile) (l ps : List String)
    (h : getProcessed s = some ps) :
    getProcessed (setProcessed s l) = some l := by
  induction s with
  | nil => simp [getProcessed, List.lookup] at h
  | cons kv rest ih =>
      obtain ⟨k0, v0⟩ := kv
      by_cases hk : k0 = "processed_reports"
      · subst hk
        simp [setProcessed, getProcessed, List.lookup]
      · have hbeq : ("processed_reports" == k0) = false :=
          beq_eq_false_iff_ne.mpr (fun hc => hk hc.symm)
        simp only [getProcessed, List.lookup, hbeq] at h
        simp only [setProcessed, if_neg hk, getProcessed, List.lookup, hbeq]
        simp only [getProcessed] at ih
        exact ih h

/-! ### Concrete data used by counterexamples and witnesses -/

/-- A direct PDF href that satisfies the report pattern. -/
def exHref : String := "fada releases vehicle retail data.pdf"

/-- The normalized URL of `exHref`. -/
def exUrl : String := normalizeUrl exHref

/-- A listing with one matching direct PDF anchor and no cards. -/
def exListing : Listing := ⟨[⟨exHref⟩], []⟩

/-- An environment in which every download and extraction succeeds and no
optional configuration is present. -/
def okEnv : Env where
  html := some "page"
  parse := fun _ => exListing
  net := fun _ => some "BYTES"
  extractO := fun _ => some "TEXT"
  today := "20251012"
  home := "HOME"
  anthropicKey := none
  smtpUser := none
  smtpPassword := none
  smtpTransportOk := false
  notificationEmail := "operator@example.com"

/-- Like `okEnv` but every download fails. -/
def failEnv : Env := { okEnv with net := fun _ => none }

/-- A PDF href that does not satisfy the report pattern by itself. -/
def cardHref : String := "files/report1.pdf"

/-- A listing whose direct anchors yield one candidate and whose single
card holds a matching heading over a PDF link that the direct strategy
never yields. -/
def cardListing : Listing :=
  ⟨[⟨exHref⟩, ⟨cardHref⟩],
   [⟨some "FADA releases November 2025 Vehicle Retail Data", [⟨cardHref⟩]⟩]⟩

/-- Like `okEnv` but over `cardListing`. -/
def cardEnv : Env := { okEnv with parse := fun _ => cardListing }

/-- A listing that repeats the same matching anchor twice. -/
def dupListing : Listing := ⟨[⟨exHref⟩, ⟨exHref⟩], []⟩

/-- Like `okEnv` but over `dupListing`. -/
def dupEnv : Env := { okEnv with parse := fun _ => dupListing }

/-- A second matching href whose download will be made to fail. -/
def c3FailHref : String := "fada releases vehicle retail data FAIL.pdf"

/-- A listing with one candidate that completes and one that fails. -/
def c3Listing : Listing := ⟨[⟨exHref⟩, ⟨c3FailHref⟩], []⟩

/-- Environment over `c3Listing` whose download fails exactly for the
second candidate. -/
def c3Env : Env :=
  { okEnv with
    parse := fun _ => c3Listing,
    net := fun u => if u = normalizeUrl c3FailHref then none else some "BYTES" }

/-- The state file holding an empty processed list. -/
def emptyStateFile : StateFile := [("processed_reports", JVal.strs [])]

/-- A state file with an extra unknown schema field. -/
def c10File : StateFile :=
  [("processed_reports", JVal.strs []), ("schema_version", JVal.other "1")]

/-- The href of the filename-derivation example of the specification,
placed under a path that satisfies the report pattern so that the anchor
is a candidate. -/
def c5Href : String :=
  "fada releases vehicle retail data/abcdef123-FADA-releases-October-2025-Report.pdf"

/-- The title the source actually derives for the `c5Href` example. -/
def c6Title : String := "-FADA-releases-October-2025-Report"

/-! ### Claim C9 -/

/-- C9: the extraction strategies are evaluated in order; the card
strategy is evaluated only when strategy 1 yields no candidates, and the
output of `find_new_reports` is always exactly one strategy's output,
never a combination. -/
theorem C9_strategy_order (page : Listing) (ps : List String) :
    (strategy1 ps page.anchors ≠ [] →
        findNewReports page ps = strategy1 ps page.anchors)
    ∧ (strategy1 ps page.anchors = [] →
        findNewReports page ps = strategy2 ps page.cards)
    ∧ (findNewReports page ps = strategy1 ps page.anchors
        ∨ findNewReports page ps = strategy2 ps page.cards) := by
  refine ⟨fun h => by simp [findNewReports, h], fun h => by simp [findNewReports, h], ?_⟩
  by_cases h : strategy1 ps page.anchors = []
  · exact Or.inr (by simp [findNewReports, h])
  · exact Or.inl (by simp [findNewReports, h])

/-- Witness for C9 on a concrete listing where strategy 1 yields a
candidate. -/
theorem C9_strategy_order_witness :
    findNewReports exListing [] = strategy1 [] exListing.anchors :=
  (C9_strategy_order exListing []).1 (by decide)

/-! ### Claim C4 -/

/-- C4 counterexample: an empty fetched listing text is a successful
fetch (`fetch_press_releases` returned text, not `None`), yet the run
exits non-zero via `if not html`; so non-zero exit does not imply a
failed listing fetch. -/
theorem C4_counterexample :
    (runCore { okEnv with html := some "" } []).exitCode = 1
    ∧ ({ okEnv with html := some "" } : Env).html ≠ none := by decide

/-- C4 amended: the run exits non-zero exactly when the listing fetch
fails or yields an empty document; every other outcome, including the
no-new-reports case and any per-report download or extraction failure,
exits 0. -/
theorem C4_exit_code (env : Env) (ps : List String) :
    (runCore env ps).exitCode
      = if env.html = none ∨ env.html = some "" then 1 else 0 := by
  cases hh : env.html with
  | none => simp [runCore_none env ps hh, hh]
  | some h =>
      by_cases hne : h = ""
      · subst hne; simp [runCore_empty env ps hh, hh]
      · by_cases hnr : findNewReports (env.parse h) ps = []
        · simp [runCore_no_new env h ps hh hne hnr, hh, hne]
        · simp [runCore_run env h ps hh hne hnr, hh, hne]

/-! ### Claim C5 -/

/-- C5 counterexample: on the specification's own example filename the
derived candidate title keeps the separator hyphen after the hash
prefix: it is `-FADA-releases-October-2025-Report`, not
`FADA-releases-October-2025-Report`. -/
theorem C5_counterexample :
    strategy1 [] [⟨c5Href⟩]
      = [⟨c6Title, BASE_URL ++ "/" ++ c5Href⟩]
    ∧ c6Title ≠ "FADA-releases-October-2025-Report" := by decide

/-- C5 amended: the derived title for the example filename is
`-FADA-releases-October-2025-Report` (hash prefix stripped, separator
hyphen kept); when the hash-prefix regex finds no match, the title is the
filename with every occurrence of `.pdf` removed, which is the filename
without its extension whenever `.pdf` occurs only as the final
extension. -/
theorem C5_derived_title :
    deriveTitle "abcdef123-FADA-releases-October-2025-Report.pdf"
      = "-FADA-releases-October-2025-Report"
    ∧ (∀ stem : String, titleSearch (stem ++ ".pdf").data = none →
        (∀ i, i < stem.data.length →
          (".pdf".data.isPrefixOf ((stem ++ ".pdf").data.drop i)) = false) →
        deriveTitle (stem ++ ".pdf") = stem) := by
  constructor
  · decide
  · intro stem hsearch hno
    have hd : (stem ++ ".pdf").data = stem.data ++ ".pdf".data := by
      obtain ⟨l⟩ := stem
      rfl
    have hno' : ∀ i, i < stem.data.length →
        (".pdf".data.isPrefixOf ((stem.data ++ ".pdf".data).drop i)) = false := by
      intro i hi
      have := hno i hi
      rwa [hd] at this
    simp only [deriveTitle, hsearch]
    rw [hd, removePdfAll_append stem.data hno']

/-- Witness for C5 on a filename with no hash-like prefix. -/
theorem C5_derived_title_witness :
    deriveTitle ("XYZ" ++ ".pdf") = "XYZ" :=
  C5_derived_title.2 "XYZ" (by decide) (by decide)

/-! ### Claim C6 -/

/-- C6 counterexample: the first sanitization `re.sub` keeps hyphens
(`[^\w\s-]`), and a direct-PDF candidate title such as the one derived
from `c5Href` contains hyphens; so the artifact filename is not the one
obtained by removing all non-word, non-space characters. -/
theorem C6_counterexample :
    deriveTitle (lastSeg c5Href) = c6Title
    ∧ mainFilename c6Title "20251012"
        = "-FADA-releases-October-2025-Report_20251012.pdf"
    ∧ claimSanitize c6Title ++ "_" ++ "20251012" ++ ".pdf"
        = "FADAreleasesOctober2025Report_20251012.pdf"
    ∧ mainFilename c6Title "20251012"
        ≠ claimSanitize c6Title ++ "_" ++ "20251012" ++ ".pdf" := by decide

/-- C6 amended: the artifact filename is the sanitized title (characters
other than word characters, whitespace and hyphens removed, every
whitespace run replaced by a single underscore), an underscore, the date
stamp, and `.pdf`; the sanitized title consists only of word characters,
hyphens and underscores. -/
theorem C6_filename (title date : String) :
    mainFilename title date = sanitizeTitle title ++ "_" ++ date ++ ".pdf"
    ∧ ∀ c ∈ (sanitizeTitle title).data, (isWordChar c || c = '-' || c = '_') = true := by
  refine ⟨rfl, ?_⟩
  intro c hc
  have hdata : (sanitizeTitle title).data
      = collapseWs false (title.data.filter keepFilenameChar) := rfl
  rw [hdata] at hc
  refine collapseWs_chars (title.data.filter keepFilenameChar) ?_ false c hc
  intro d hd
  exact (List.mem_filter.mp hd).2

/-- Witness for C6 on a concrete title. -/
theorem C6_filename_witness :
    mainFilename "A  B!" "20251012" = sanitizeTitle "A  B!" ++ "_" ++ "20251012" ++ ".pdf"
    ∧ (isWordChar 'A' || 'A' = '-' || 'A' = '_') = true :=
  ⟨(C6_filename "A  B!" "20251012").1,
   (C6_filename "A  B!" "20251012").2 'A' (by decide)⟩
/-! ### Claim C3 -/

/-- C3: for every run over a fetched listing, a candidate whose download
or text extraction fails is skipped and its URL is absent from the final
processed list, while the URL of every candidate that passes download and
extraction (and is therefore notified) is present; the run still reaches
the state save. -/
theorem C3_skip_on_failure (env : Env) (ps : List String) (h : String)
    (hh : env.html = some h) (hne : h ≠ "") :
    ∀ r ∈ findNewReports (env.parse h) ps,
      (completes env r = false → r.url ∉ (runCore env ps).processed)
      ∧ (completes env r = true →
          r.url ∈ (runCore env ps).processed ∧ (runCore env ps).saved = true) := by
  intro r hr
  have hnr : findNewReports (env.parse h) ps ≠ [] := List.ne_nil_of_mem hr
  have hproc : (runCore env ps).processed
      = ps ++ ((findNewReports (env.parse h) ps).filter (completes env)).map Report.url := by
    rw [runCore_run env h ps hh hne hnr]
  have hsaved : (runCore env ps).saved = true := by
    rw [runCore_run env h ps hh hne hnr]
  constructor
  · intro hfail hmem
    rw [hproc] at hmem
    rcases List.mem_append.mp hmem with hmem | hmem
    · exact findNewReports_url_not_mem (env.parse h) ps r hr hmem
    · rcases List.mem_map.mp hmem with ⟨r', hr', hurl⟩
      have hr'c : completes env r' = true := (List.mem_filter.mp hr').2
      rw [completes_congr env r' r hurl, hfail] at hr'c
      exact Bool.false_ne_true hr'c
  · intro hc
    refine ⟨?_, hsaved⟩
    rw [hproc]
    exact List.mem_append_right _
      (List.mem_map_of_mem _ (List.mem_filter.mpr ⟨hr, hc⟩))

/-- Witness for C3: in `c3Env` the failing candidate's URL is absent and
the completing candidate's URL is present after the run. -/
theorem C3_skip_on_failure_witness :
    (normalizeUrl c3FailHref ∉ (runCore c3Env []).processed)
    ∧ (normalizeUrl exHref ∈ (runCore c3Env []).processed
        ∧ (runCore c3Env []).saved = true) :=
  ⟨(C3_skip_on_failure c3Env [] "page" rfl (by decide)
      ⟨deriveTitle (lastSeg c3FailHref), normalizeUrl c3FailHref⟩ (by decide)).1 (by decide),
   (C3_skip_on_failure c3Env [] "page" rfl (by decide)
      ⟨deriveTitle (lastSeg exHref), normalizeUrl exHref⟩ (by decide)).2 (by decide)⟩

/-! ### Claim C7 -/

/-- C7: with no API credential configured, `generate_summary` yields no
summary, and every report that reaches the summarization stage (passes
download and extraction) is still notified with the fixed placeholder
summary and still appended to the processed list, rather than skipped. -/
theorem C7_placeholder (env : Env) (ps : List String) (h : String)
    (hh : env.html = some h) (hne : h ≠ "") (hkey : env.anthropicKey = none) :
    (∀ model text title,
        generateSummary env.anthropicKey model text title = none)
    ∧ (∀ r ∈ findNewReports (env.parse h) ps, completes env r = true →
        (r.title, pdfPath env r.title, placeholderSummary) ∈ (runCore env ps).console
        ∧ r.url ∈ (runCore env ps).processed) := by
  constructor
  · intro model text title
    rw [hkey]
    rfl
  · intro r hr hc
    have hnr : findNewReports (env.parse h) ps ≠ [] := List.ne_nil_of_mem hr
    have hcons : (runCore env ps).console
        = ((findNewReports (env.parse h) ps).filter (completes env)).map
            (fun r => (r.title, pdfPath env r.title, placeholderSummary)) := by
      rw [runCore_run env h ps hh hne hnr]
    have hproc : (runCore env ps).processed
        = ps ++ ((findNewReports (env.parse h) ps).filter (completes env)).map Report.url := by
      rw [runCore_run env h ps hh hne hnr]
    rw [hcons, hproc]
    exact ⟨List.mem_map_of_mem _ (List.mem_filter.mpr ⟨hr, hc⟩),
      List.mem_append_right _
        (List.mem_map_of_mem _ (List.mem_filter.mpr ⟨hr, hc⟩))⟩

/-- Witness for C7 in the unconfigured environment `okEnv`. -/
theorem C7_placeholder_witness :
    generateSummary okEnv.anthropicKey (fun _ _ => some "SUMMARY") "TEXT" "T" = none
    ∧ ((deriveTitle (lastSeg exHref), pdfPath okEnv (deriveTitle (lastSeg exHref)),
          placeholderSummary) ∈ (runCore okEnv []).console
        ∧ normalizeUrl exHref ∈ (runCore okEnv []).processed) :=
  ⟨(C7_placeholder okEnv [] "page" rfl (by decide) rfl).1 _ _ _,
   (C7_placeholder okEnv [] "page" rfl (by decide) rfl).2
      ⟨deriveTitle (lastSeg exHref), normalizeUrl exHref⟩ (by decide) (by decide)⟩

/-! ### Claim C8 -/

/-- C8: for every report that reaches the notification stage, the console
record (title, artifact path, summary) is produced, the report's URL is
appended to the processed list, and the run exits 0; moreover none of
this depends on the SMTP credentials or on the email transport outcome —
changing them leaves the console records, the processed list and the exit
code unchanged. -/
theorem C8_notifier (env : Env) (ps : List String) (h : String)
    (hh : env.html = some h) (hne : h ≠ "") :
    ∀ r ∈ findNewReports (env.parse h) ps, completes env r = true →
      (r.title, pdfPath env r.title, placeholderSummary) ∈ (runCore env ps).console
      ∧ r.url ∈ (runCore env ps).processed
      ∧ (runCore env ps).exitCode = 0
      ∧ ∀ u p k,
          (runCore { env with
              smtpUser := u, smtpPassword := p, smtpTransportOk := k } ps).console
            = (runCore env ps).console
          ∧ (runCore { env with
              smtpUser := u, smtpPassword := p, smtpTransportOk := k } ps).processed
            = (runCore env ps).processed
          ∧ (runCore { env with
              smtpUser := u, smtpPassword := p, smtpTransportOk := k } ps).exitCode = 0 := by
  intro r hr hc
  have hnr : findNewReports (env.parse h) ps ≠ [] := List.ne_nil_of_mem hr
  have e1 := runCore_run env h ps hh hne hnr
  refine ⟨?_, ?_, ?_, ?_⟩
  · rw [e1]
    exact List.mem_map_of_mem _ (List.mem_filter.mpr ⟨hr, hc⟩)
  · rw [e1]
    exact List.mem_append_right _
      (List.mem_map_of_mem _ (List.mem_filter.mpr ⟨hr, hc⟩))
  · rw [e1]
  · intro u p k
    have e2 := runCore_run
      { env with smtpUser := u, smtpPassword := p, smtpTransportOk := k }
      h ps hh hne hnr
    refine ⟨?_, ?_, ?_⟩
    · rw [e1, e2]
      rfl
    · rw [e1, e2]
      rfl
    · rw [e2]

/-- Witness for C8: concrete run with and without SMTP configuration. -/
theorem C8_notifier_witness :
    (deriveTitle (lastSeg exHref), pdfPath okEnv (deriveTitle (lastSeg exHref)),
        placeholderSummary) ∈ (runCore okEnv []).console
    ∧ normalizeUrl exHref ∈ (runCore okEnv []).processed
    ∧ (runCore okEnv []).exitCode = 0
    ∧ (runCore { okEnv with
          smtpUser := some "user", smtpPassword := some "pw",
          smtpTransportOk := true } []).console
        = (runCore okEnv []).console := by
  have H := C8_notifier okEnv [] "page" rfl (by decide)
    ⟨deriveTitle (lastSeg exHref), normalizeUrl exHref⟩ (by decide) (by decide)
  exact ⟨H.1, H.2.1, H.2.2.1, (H.2.2.2 (some "user") (some "pw") true).1⟩

/-! ### Claim C1 -/

/-- C1 counterexample.  First scenario: a run over `failEnv` (all
downloads fail) saves an unchanged processed list, so a second run on the
identical listing has a non-empty candidate list and, once the download
succeeds, produces a notification.  Second scenario: even when every
candidate of the first run completes, the card-strategy fallback fires on
the second run (strategy 1 now filters everything out) and yields a fresh
candidate and a notification. -/
theorem C1_counterexample :
    ((runCore failEnv []).saved = true
      ∧ (runCore failEnv []).processed = []
      ∧ findNewReports exListing (runCore failEnv []).processed ≠ []
      ∧ (runCore okEnv (runCore failEnv []).processed).console ≠ [])
    ∧ ((∀ r ∈ findNewReports cardListing [], completes cardEnv r = true)
      ∧ findNewReports cardListing (runCore cardEnv []).processed ≠ []
      ∧ (runCore cardEnv (runCore cardEnv []).processed).console ≠ []) := by
  decide

/-- C1 amended: the candidate list never contains a URL of the supplied
processed set; consequently, when the listing has no card containers and
every candidate of the first run completes its pipeline, a second run on
the identical listing with the state persisted by the first run yields an
empty candidate list and zero notifications. -/
theorem C1_dedup_and_second_run :
    (∀ (page : Listing) (ps : List String) (u : String), u ∈ ps →
        ∀ r ∈ findNewReports page ps, r.url ≠ u)
    ∧ (∀ (env env' : Env) (h : String) (ps : List String),
        env.html = some h → h ≠ "" →
        env'.html = some h → env'.parse = env.parse →
        (env.parse h).cards = [] →
        (∀ r ∈ findNewReports (env.parse h) ps, completes env r = true) →
        findNewReports (env.parse h) (runCore env ps).processed = []
        ∧ (runCore env' (runCore env ps).processed).console = []) := by
  constructor
  · intro page ps u hu r hr he
    exact findNewReports_url_not_mem page ps r hr (he ▸ hu)
  · intro env env' h ps hh hne hh' hpp hcards hcomp
    have hs2 : ∀ qs, strategy2 qs (env.parse h).cards = [] := by
      intro qs
      rw [hcards]
      rfl
    by_cases hnr : findNewReports (env.parse h) ps = []
    · have hproc : (runCore env ps).processed = ps := by
        rw [runCore_no_new env h ps hh hne hnr]
      rw [hproc]
      refine ⟨hnr, ?_⟩
      have hnr' : findNewReports (env'.parse h) ps = [] := by
        rw [hpp]
        exact hnr
      rw [runCore_no_new env' h ps hh' hne hnr']
    · have hproc : (runCore env ps).processed
          = ps ++ (findNewReports (env.parse h) ps).map Report.url := by
        rw [runCore_run env h ps hh hne hnr]
        rw [List.filter_eq_self.mpr hcomp]
      have hs1ne : strategy1 ps (env.parse h).anchors ≠ [] := by
        intro hcon
        exact hnr (by simp [findNewReports, hcon, hs2 ps])
      have hnr_eq : findNewReports (env.parse h) ps
          = strategy1 ps (env.parse h).anchors := by
        simp [findNewReports, hs1ne]
      have hempty : strategy1 ((runCore env ps).processed) (env.parse h).anchors = [] := by
        rw [hproc]
        refine strategy1_eq_nil ps _ (env.parse h).anchors ?_ ?_
        · intro u hu
          exact List.mem_append_left _ hu
        · intro r hr
          refine List.mem_append_right _ ?_
          rw [hnr_eq]
          exact List.mem_map_of_mem _ hr
      have hfinal : findNewReports (env.parse h) (runCore env ps).processed = [] := by
        simp [findNewReports, hempty, hs2 _]
      refine ⟨hfinal, ?_⟩
      have hfinal' : findNewReports (env'.parse h) (runCore env ps).processed = [] := by
        rw [hpp]
        exact hfinal
      rw [runCore_no_new env' h _ hh' hne hfinal']

/-- Witness for C1: with every candidate completing and no cards, the
second run over the saved state finds nothing and notifies nothing. -/
theorem C1_dedup_and_second_run_witness :
    findNewReports exListing (runCore okEnv []).processed = []
    ∧ (runCore okEnv (runCore okEnv []).processed).console = [] :=
  C1_dedup_and_second_run.2 okEnv okEnv "page" [] rfl (by decide) rfl rfl
    (by decide) (by decide)

/-! ### Claim C2 -/

/-- C2 counterexample: a listing repeating the same matching anchor twice
yields two candidates with the same URL; after a run in which both
complete, the persisted processed list contains that URL twice, so a URL
of a completed report is not present exactly once and duplicates do
accumulate. -/
theorem C2_counterexample :
    (∀ r ∈ findNewReports dupListing [], completes dupEnv r = true)
    ∧ (runCore dupEnv []).processed = [exUrl, exUrl]
    ∧ runMain dupEnv emptyStateFile
        = some (runCore dupEnv [], [("processed_reports", JVal.strs [exUrl, exUrl])])
    ∧ ¬ (List.count exUrl [exUrl, exUrl] = 1) := by decide

/-- C2 amended: provided the initial processed list has no duplicates and
the candidate list contains no two candidates with the same URL, the
processed list after the run has no duplicates; in particular the URL of
every completed candidate occurs exactly once, and the saved state file
carries exactly the final processed list. -/
theorem C2_no_duplicate_accumulation (env : Env) (file : StateFile) (ps : List String)
    (hfile : getProcessed file = some ps) (hps : ps.Nodup)
    (hnodup : ∀ h, env.html = some h →
        ((findNewReports (env.parse h) ps).map Report.url).Nodup) :
    runMain env file = some (runCore env ps,
        if (runCore env ps).saved then
          setProcessed file (runCore env ps).processed
        else file)
    ∧ (runCore env ps).processed.Nodup
    ∧ (∀ qs, getProcessed (if (runCore env ps).saved then
          setProcessed file (runCore env ps).processed else file) = some qs →
        qs.Nodup)
    ∧ (∀ h, env.html = some h → h ≠ "" →
        ∀ r ∈ findNewReports (env.parse h) ps, completes env r = true →
          (runCore env ps).processed.count r.url = 1) := by
  have hnd : (runCore env ps).processed.Nodup := by
    rcases runCore_processed_cases env ps with ⟨hp, _⟩ | ⟨h, hh, hne, hnr, hp, _⟩
    · rw [hp]
      exact hps
    · rw [hp]
      refine List.Nodup.append hps ?_ ?_
      · refine List.Nodup.sublist ?_ (hnodup h hh)
        exact List.Sublist.map Report.url (List.filter_sublist _)
      · intro a ha hmem
        rcases List.mem_map.mp hmem with ⟨r, hrf, rfl⟩
        exact findNewReports_url_not_mem (env.parse h) ps r
          (List.mem_filter.mp hrf).1 ha
  refine ⟨by rw [runMain, hfile], hnd, ?_, ?_⟩
  · intro qs hqs
    by_cases hs : (runCore env ps).saved = true
    · rw [if_pos hs, getProcessed_setProcessed file _ ps hfile] at hqs
      obtain rfl := Option.some.inj hqs
      exact hnd
    · rw [if_neg hs, hfile] at hqs
      obtain rfl := Option.some.inj hqs
      exact hps
  · intro h hh hne r hr hc
    have hnr : findNewReports (env.parse h) ps ≠ [] := List.ne_nil_of_mem hr
    have hp : (runCore env ps).processed
        = ps ++ ((findNewReports (env.parse h) ps).filter (completes env)).map Report.url := by
      rw [runCore_run env h ps hh hne hnr]
    refine List.count_eq_one_of_mem hnd ?_
    rw [hp]
    exact List.mem_append_right _
      (List.mem_map_of_mem _ (List.mem_filter.mpr ⟨hr, hc⟩))

/-- Witness for C2 on a duplicate-free concrete run. -/
theorem C2_no_duplicate_accumulation_witness :
    (runCore okEnv []).processed.Nodup
    ∧ (runCore okEnv []).processed.count (normalizeUrl exHref) = 1 := by
  have H := C2_no_duplicate_accumulation okEnv emptyStateFile [] rfl List.nodup_nil
    (by
      intro h hh
      have hpage : some "page" = some h := hh
      injection hpage with hpage
      subst hpage
      decide)
  exact ⟨H.2.1, H.2.2.2 "page" rfl (by decide)
    ⟨deriveTitle (lastSeg exHref), normalizeUrl exHref⟩ (by decide) (by decide)⟩

/-! ### Claim C10 -/

/-- C10: one run of `main` modifies only the `processed_reports` field of
the persisted state: every other field of the loaded state file is saved
back with its value unchanged. -/
theorem C10_state_frame (env : Env) (file : StateFile) (res : RunResult)
    (file' : StateFile) (h : runMain env file = some (res, file')) :
    ∀ k, k ≠ "processed_reports" → file'.lookup k = file.lookup k := by
  intro k hk
  rw [runMain] at h
  cases hg : getProcessed file with
  | none =>
      rw [hg] at h
      exact absurd h (by simp)
  | some ps =>
      rw [hg] at h
      obtain ⟨h1, h2⟩ := Prod.mk.inj (Option.some.inj h)
      by_cases hs : (runCore env ps).saved = true
      · rw [← h2, if_pos hs]
        exact lookup_setProcessed_ne file _ k hk
      · rw [← h2, if_neg hs]

/-- Witness for C10 on a state file with an extra schema field, through a
run that reaches the state save. -/
theorem C10_state_frame_witness :
    (setProcessed c10File (runCore okEnv []).processed).lookup "schema_version"
      = c10File.lookup "schema_version" :=
  C10_state_frame okEnv c10File (runCore okEnv [])
    (setProcessed c10File (runCore okEnv []).processed)
    (by decide) "schema_version" (by decide)

end Fada
